import Mathlib

/-! minio client (`mc`): host lookup, make-bucket command, part size and key encoding

A shallow embedding of the parts of the repository the specification talks
about, followed by the properties settled against it.

* `getHostConfig` (hostconfig.go) with the error constructors of
  typed-errors.go;
* `checkMakeBucketSyntax`, `mainMakeBucket`, `doMakeBucket` (mb-main.go) with
  the fatal routine of pkg/console/console.go;
* `loadSessionV1`, `getSessionIDsV1`, `getSessionFileV1` (session-v1.go);
* `GetPartSize`, `urlEncodeName` and `isValidBucketACL`, of which the
  repository only carries the tests (minio-go/api_test.go).

Go strings are modelled by `String`, Go maps by association lists with
pairwise distinct keys whose list order stands for the order in which a
`range` loop visits the entries.
-/

set_option autoImplicit false

namespace Mc

/-! ## Errors (typed-errors.go) -/

/-- A `*probe.Error`, reduced to the message of the Go error it wraps
(`Trace` and `Untrace` only edit the recorded call trace). -/
structure probeError where
  Cause : String
deriving DecidableEq, Repr

/-- The `errInvalidArgument` constructor of typed-errors.go. -/
def errInvalidArgument : probeError :=
  ⟨"Invalid arguments provided, cannot proceed."⟩

/-- The `errInvalidGlobURL` constructor of typed-errors.go. -/
def errInvalidGlobURL (glob request : String) : probeError :=
  ⟨"Error reading glob URL ‘" ++ glob ++ "’ while comparing with ‘" ++ request ++ "’."⟩

/-- The `errNoMatchingHost` constructor of typed-errors.go. -/
def errNoMatchingHost (URL : String) : probeError :=
  ⟨"No matching host found for the given URL ‘" ++ URL ++ "’."⟩

/-! ## Host configuration (hostconfig.go) -/

/-- The `hostConfig` struct of hostconfig.go. -/
structure hostConfig where
  AccessKeyID : String
  SecretAccessKey : String
  API : String
deriving DecidableEq, Repr

/-- The Go zero value `hostConfig{}`. -/
def hostConfig.zero : hostConfig := ⟨"", "", ""⟩

/-- The two URL kinds of package `client` (`client.Object`, `client.Filesystem`). -/
inductive URLType where
  | Object
  | Filesystem
deriving DecidableEq, Repr

/-- The fields of `client.URL` that `getHostConfig` reads (`Kind` is the Go
field `Type`). -/
structure clientURL where
  Kind : URLType
  Host : String
deriving DecidableEq, Repr

/-- The part of the mc configuration read here: the `Hosts` map (host pattern
to credentials) and the `Aliases` map. A list stands for a Go map: its keys
are pairwise distinct and its order is the order a `range` loop visits. -/
structure mcConfig where
  Hosts : List (String × hostConfig)
  Aliases : List (String × String)
deriving DecidableEq, Repr

/-- The keys of a Go map given as an association list. -/
def mapKeys {β : Type} (m : List (String × β)) : List String := m.map Prod.fst

/-- A well-formed Go map: no key occurs twice. -/
def wellFormedMap {β : Type} (m : List (String × β)) : Prop := (mapKeys m).Nodup

instance {β : Type} (m : List (String × β)) : Decidable (wellFormedMap m) := by
  unfold wellFormedMap; infer_instance

/-- The body of the glob loop of `getHostConfig` at one entry: `some r` when the
loop returns `r` there, `none` when it goes on to the next entry. `fmatch`
stands for `filepath.Match`, `host` for `url.Host`. -/
def visitHost (fmatch : String → String → Except String Bool) (URL host : String)
    (entry : String × hostConfig) : Option (hostConfig × Option probeError) :=
  match fmatch entry.1 host with
  | .error _ => some (hostConfig.zero, some (errInvalidGlobURL entry.1 URL))
  | .ok true => some (entry.2, none)
  | .ok false => none

/-- The glob loop of `getHostConfig`, `for globURL, hostCfg := range config.Hosts`,
followed by the final `return hostConfig{}, errNoMatchingHost(URL)`. -/
def rangeHosts (fmatch : String → String → Except String Bool) (URL host : String) :
    List (String × hostConfig) → hostConfig × Option probeError
  | [] => (hostConfig.zero, some (errNoMatchingHost URL))
  | entry :: rest =>
    match visitHost fmatch URL host entry with
    | some r => r
    | none => rangeHosts fmatch URL host rest

/-- A message contains a text: the text is a contiguous part of it. -/
def containsText (msg part : String) : Prop := part.data <:+: msg.data

instance (msg part : String) : Decidable (containsText msg part) := by
  unfold containsText; infer_instance

/-- The function `getHostConfig` of hostconfig.go. `getMcConfig` is the outcome of
loading the configuration, `NewURL` is `client.NewURL`, `fmatch` is
`filepath.Match`; the result is the Go pair `(hostConfig, *probe.Error)`. -/
def getHostConfig (getMcConfig : Except probeError mcConfig)
    (NewURL : String → clientURL) (fmatch : String → String → Except String Bool)
    (URL : String) : hostConfig × Option probeError :=
  match getMcConfig with
  | .error err => (hostConfig.zero, some err)
  | .ok config =>
    let url := NewURL URL
    if url.Kind = URLType.Filesystem then
      (⟨"", "", "fs"⟩, none)
    else
      match config.Hosts.lookup url.Host with
      | some hostCfg => (hostCfg, none)
      | none => rangeHosts fmatch URL url.Host config.Hosts

/-! ## `filepath.Match` (Go standard library, Unix separator)

`getHostConfig` is stated for any matcher. The closed examples below use this
transcription of `path/filepath.Match` as it stood in the Go releases of 2015,
with strings taken as sequences of code points (on ASCII patterns and hosts
these are the bytes Go compares). Loops whose bound is not structural carry a
fuel argument, started at the length of the text they consume plus one; the
fuel never runs out (`filepathMatch_fuel`). -/

deriving instance DecidableEq for Except

/-- The error `filepath.ErrBadPattern`. -/
def ErrBadPattern : String := "syntax error in pattern"

/-- The mark of a loop of this model that used up its fuel. It is no result of
the Go function, and `filepathMatch` never gives it (`filepathMatch_fuel`). -/
def outOfFuel : String := "out of fuel"

/-- The inner scan of `scanChunk`: the chunk runs up to the first `*` that is
not inside a bracket expression; a backslash skips the next character. -/
def scanChunkLoop (inrange : Bool) : List Char → List Char × List Char
  | [] => ([], [])
  | c :: cs =>
    if c = '\\' then
      match cs with
      | [] => ([c], [])
      | d :: ds =>
        let r := scanChunkLoop inrange ds
        (c :: d :: r.1, r.2)
    else if c = '[' then
      let r := scanChunkLoop true cs
      (c :: r.1, r.2)
    else if c = ']' then
      let r := scanChunkLoop false cs
      (c :: r.1, r.2)
    else if c = '*' then
      if inrange then
        let r := scanChunkLoop inrange cs
        (c :: r.1, r.2)
      else ([], c :: cs)
    else
      let r := scanChunkLoop inrange cs
      (c :: r.1, r.2)

/-- The function `scanChunk`: the next segment of the pattern, a star-free
string possibly preceded by stars; returns `(star, chunk, rest)`. -/
def scanChunk (pattern : List Char) : Bool × List Char × List Char :=
  let stripped := pattern.dropWhile (fun c => c == '*')
  let star := decide (stripped.length < pattern.length)
  let r := scanChunkLoop false stripped
  (star, r.1, r.2)

/-- The function `getEsc`: one possibly escaped character of a bracket
expression, with the rest of the chunk; an expression may not end there. -/
def getEsc : List Char → Except String (Char × List Char)
  | [] => .error ErrBadPattern
  | '-' :: _ => .error ErrBadPattern
  | ']' :: _ => .error ErrBadPattern
  | '\\' :: [] => .error ErrBadPattern
  | '\\' :: c :: cs => if cs.isEmpty then .error ErrBadPattern else .ok (c, cs)
  | c :: cs => if cs.isEmpty then .error ErrBadPattern else .ok (c, cs)

/-- The range loop of a bracket expression in `matchChunk`: reads ranges until
the closing bracket, returns whether `r` fell in one and the chunk left. -/
def matchClass (r : Char) : Nat → Bool → Nat → List Char → Except String (Bool × List Char)
  | 0, _, _, _ => .error outOfFuel
  | fuel + 1, found, nrange, chunk =>
    match chunk, decide (0 < nrange) with
    | ']' :: cs, true => .ok (found, cs)
    | _, _ =>
      match getEsc chunk with
      | .error e => .error e
      | .ok (lo, chunk1) =>
        match chunk1 with
        | '-' :: cs =>
          match getEsc cs with
          | .error e => .error e
          | .ok (hi, chunk2) =>
            matchClass r fuel (found || (decide (lo ≤ r) && decide (r ≤ hi))) (nrange + 1) chunk2
        | _ =>
          matchClass r fuel (found || (decide (lo ≤ r) && decide (r ≤ lo))) (nrange + 1) chunk1

/-- The three outcomes of `matchChunk`: the chunk matched a prefix and `rest`
remains (`ok` true), it did not match, or the pattern is malformed. -/
inductive ChunkResult where
  | matched (rest : List Char)
  | noMatch
  | bad (err : String)
deriving DecidableEq, Repr

/-- The function `matchChunk`: does `chunk` (literals, bracket expressions and
`?`) match the beginning of `s`? -/
def matchChunk : Nat → List Char → List Char → ChunkResult
  | 0, _, _ => .bad outOfFuel
  | fuel + 1, chunk, s =>
    match chunk, s with
    | [], s => .matched s
    | _ :: _, [] => .noMatch
    | p :: chunk, c :: s =>
      if p = '[' then
        match chunk with
        | [] => .bad ErrBadPattern
        | n :: cs =>
          let negated := decide (n = '^')
          let chunk1 := if negated then cs else n :: cs
          match matchClass c (chunk1.length + 1) false 0 chunk1 with
          | .error e => .bad e
          | .ok (found, chunk2) =>
            if found = negated then .noMatch else matchChunk fuel chunk2 s
      else if p = '?' then
        if c = '/' then .noMatch else matchChunk fuel chunk s
      else if p = '\\' then
        match chunk with
        | [] => .bad ErrBadPattern
        | e :: chunk1 => if e ≠ c then .noMatch else matchChunk fuel chunk1 s
      else
        if p ≠ c then .noMatch else matchChunk fuel chunk s

/-- The outcome of the star loop of `Match`. -/
inductive StarResult where
  | found (rest : List Char)
  | notFound
  | bad (err : String)
deriving DecidableEq, Repr

/-- The star loop of `Match`: look for a match of `chunk` after skipping
`i + 1` characters of the name, never skipping a separator; the last chunk
must exhaust the name. -/
def starLoop (chunk : List Char) (lastChunk : Bool) : List Char → StarResult
  | [] => .notFound
  | c :: rest =>
    if c = '/' then .notFound
    else
      match matchChunk (chunk.length + 1) chunk rest with
      | .matched t =>
        if lastChunk && !t.isEmpty then starLoop chunk lastChunk rest
        else .found t
      | .bad e => .bad e
      | .noMatch => starLoop chunk lastChunk rest

/-- The main loop of `Match` over the chunks of the pattern. -/
def matchLoop : Nat → List Char → List Char → Except String Bool
  | 0, _, _ => .error outOfFuel
  | fuel + 1, pattern, name =>
    if pattern.isEmpty then .ok name.isEmpty
    else
      match scanChunk pattern with
      | (star, chunk, rest) =>
        if star && chunk.isEmpty then
          .ok (!name.contains '/')
        else
          match matchChunk (chunk.length + 1) chunk name with
          | .matched t =>
            if t.isEmpty || !rest.isEmpty then matchLoop fuel rest t
            else if star then
              match starLoop chunk rest.isEmpty name with
              | .found t1 => matchLoop fuel rest t1
              | .bad e => .error e
              | .notFound => .ok false
            else .ok false
          | .bad e => .error e
          | .noMatch =>
            if star then
              match starLoop chunk rest.isEmpty name with
              | .found t1 => matchLoop fuel rest t1
              | .bad e => .error e
              | .notFound => .ok false
            else .ok false

/-- The function `filepath.Match`: reports whether `name` matches the shell
pattern, or `ErrBadPattern` when the pattern is found malformed. -/
def filepathMatch (pattern name : String) : Except String Bool :=
  matchLoop (pattern.length + 1) pattern.data name.data

/-! ## The make-bucket command (mb-main.go) -/

/-- The struct `MakeBucketMessage` of mb-main.go. -/
structure MakeBucketMessage where
  Status : String
  Bucket : String
deriving DecidableEq, Repr

/-- What a run of the command does, in order: the help shown by
`cli.ShowCommandHelpAndExit`, a fatal report through `console.Fatalln`, the
resolution of an argument by `getAliasURL`, a call of `doMakeBucket`, and a
message printed by `Prints`. -/
inductive Event where
  | help (command : String)
  | fatal (msg : String) (err : probeError)
  | resolve (arg targetURL : String)
  | doMakeBucket (targetURL : String)
  | prints (message : MakeBucketMessage)
deriving DecidableEq, Repr

/-- A run of the command over a world of type `σ` (the storage the clients act
on): the events so far, the world reached, and the exit code once `os.Exit`
was called (`none` while the command is still running or has returned). -/
structure Run (σ : Type) where
  events : List Event
  world : σ
  exitCode : Option Nat
deriving DecidableEq, Repr

/-- Puts events in front of a run: they happened before it. -/
def Run.after {σ : Type} (evs : List Event) (r : Run σ) : Run σ :=
  { r with events := evs ++ r.events }

/-- The predicate `unicode.IsSpace` of Go: the white space of Unicode. -/
def isSpace (c : Char) : Bool :=
  let n := c.toNat
  (9 ≤ n && n ≤ 13) || n == 32 || n == 0x85 || n == 0xA0 || n == 0x1680 ||
  (0x2000 ≤ n && n ≤ 0x200A) || n == 0x2028 || n == 0x2029 || n == 0x202F ||
  n == 0x205F || n == 0x3000

/-- The function `strings.TrimSpace` of Go: leading and trailing white space
removed. -/
def TrimSpace (s : String) : String :=
  ⟨((s.data.dropWhile isSpace).reverse.dropWhile isSpace).reverse⟩

/-- The routine `fatalQuitRoutine` of console.go, called after a fatal message:
`os.Exit(1)` unless `console.IsTesting` is set; gives the exit code. -/
def fatalQuitRoutine (IsTesting : Bool) : Option Nat :=
  if !IsTesting then some 1 else none

/-- Modelled from the spec: the helper `fatalIf`, which mb-main.go calls and
none of the sources defines. A nil error lets the caller go on; any other
error is reported as fatal with the message, through `console.Fatalln` of
console.go, which ends with `fatalQuitRoutine`. Gives the events and the exit
code when the process ended. -/
def fatalIf (IsTesting : Bool) (err : Option probeError) (msg : String) :
    List Event × Option Nat :=
  match err with
  | none => ([], none)
  | some e => ([Event.fatal msg e], fatalQuitRoutine IsTesting)

/-- The loop of `checkMakeBucketSyntax` over the arguments. -/
def checkArgs (IsTesting : Bool) : List String → List Event × Option Nat
  | [] => ([], none)
  | arg :: rest =>
    if TrimSpace arg = "" then
      match fatalIf IsTesting (some errInvalidArgument) "Unable to validate empty argument." with
      | (evs, some code) => (evs, some code)
      | (evs, none) =>
        let r := checkArgs IsTesting rest
        (evs ++ r.1, r.2)
    else checkArgs IsTesting rest

/-- The function `checkMakeBucketSyntax` of mb-main.go on the argument list of
the context: the events and the exit code when the process ended.
`cli.ShowCommandHelpAndExit(ctx, "mb", 1)` shows the help and exits with 1. -/
def checkMakeBucketSyntax (IsTesting : Bool) (args : List String) :
    List Event × Option Nat :=
  if args.isEmpty || args.head? = some "help" then
    ([Event.help "mb"], some 1)
  else checkArgs IsTesting args

/-- The function `doMakeBucket` of mb-main.go. `url2Client` builds the client of
a target or fails, `MakeBucket` is the method `clnt.MakeBucket()` acting on the
world; the result is the error (`none` for nil) and the world reached. -/
def doMakeBucket {σ κ : Type} (url2Client : String → Except probeError κ)
    (MakeBucket : κ → σ → Option probeError × σ) (targetURL : String) (w : σ) :
    Option probeError × σ :=
  match url2Client targetURL with
  | .error err => (some err, w)
  | .ok clnt =>
    match MakeBucket clnt w with
    | (some err, w1) => (some err, w1)
    | (none, w1) => (none, w1)

/-- The loop of `mainMakeBucket` over the arguments. -/
def makeBuckets {σ κ : Type} (IsTesting : Bool) (config : mcConfig)
    (getAliasURL : String → List (String × String) → String)
    (url2Client : String → Except probeError κ)
    (MakeBucket : κ → σ → Option probeError × σ) : List String → σ → Run σ
  | [], w => ⟨[], w, none⟩
  | arg :: rest, w =>
    let targetURL := getAliasURL arg config.Aliases
    match doMakeBucket url2Client MakeBucket targetURL w with
    | (err, w1) =>
      match fatalIf IsTesting err ("Unable to make bucket ‘" ++ targetURL ++ "’.") with
      | (evs, some code) =>
        ⟨[Event.resolve arg targetURL, Event.doMakeBucket targetURL] ++ evs, w1, some code⟩
      | (evs, none) =>
        Run.after
          ([Event.resolve arg targetURL, Event.doMakeBucket targetURL] ++ evs ++
            [Event.prints ⟨"success", targetURL⟩])
          (makeBuckets IsTesting config getAliasURL url2Client MakeBucket rest w1)

/-- The handler `mainMakeBucket` of mb-main.go on the argument list, from the
world `w`. `config` is the configuration `mustGetMcConfig` returned;
`setMakeBucketPalette` only changes colours and is left out. -/
def mainMakeBucket {σ κ : Type} (IsTesting : Bool) (config : mcConfig)
    (getAliasURL : String → List (String × String) → String)
    (url2Client : String → Except probeError κ)
    (MakeBucket : κ → σ → Option probeError × σ) (args : List String) (w : σ) : Run σ :=
  match checkMakeBucketSyntax IsTesting args with
  | (evs, some code) => ⟨evs, w, some code⟩
  | (evs, none) =>
    Run.after evs (makeBuckets IsTesting config getAliasURL url2Client MakeBucket args w)

/-- The events of targets made one after the other with success. -/
def successEvents (config : mcConfig)
    (getAliasURL : String → List (String × String) → String) (args : List String) :
    List Event :=
  args.flatMap (fun arg =>
    [Event.resolve arg (getAliasURL arg config.Aliases),
     Event.doMakeBucket (getAliasURL arg config.Aliases),
     Event.prints ⟨"success", getAliasURL arg config.Aliases⟩])

/-! ## Part size (minio-go, known here through api_test.go and the specification) -/

/-- The constant `MinimumPartSize`: 5 MiB. -/
def MinimumPartSize : Nat := 1024 * 1024 * 5

/-- The maximum part size, `maxPartSize` in `TestPartSize`: 5 GiB. -/
def maxPartSize : Nat := 1024 * 1024 * 1024 * 5

/-- The maximum number of parts of a multipart upload. -/
def maxParts : Nat := 10000

/-- The quotient rounded up, `ceil(a / b)`. -/
def ceilDiv (a b : Nat) : Nat := (a + b - 1) / b

/-- Modelled from the spec: the function `GetPartSize` of minio-go, of which the
sources only hold the tests. "Start from a minimum of 5 MiB; if total / minimum
would exceed the maximum allowed part count (10,000), grow the part size
proportionally so that ceil(total / partSize) ≤ maxParts; clamp the result so it
never exceeds the maximum single-part size (5 GiB)." The quotient total / minimum
exceeds `maxParts` exactly when `maxParts * MinimumPartSize < total`, and the
grown size is the least one that keeps the part count within `maxParts`. -/
def GetPartSize (total : Nat) : Nat :=
  let grown :=
    if maxParts * MinimumPartSize < total then ceilDiv total maxParts else MinimumPartSize
  if maxPartSize < grown then maxPartSize else grown

/-! ## Key encoding (minio-go, known here through api_test.go and the specification) -/

/-- The UTF-8 encoding of a character, as byte values (RFC 3629). -/
def utf8Bytes (c : Char) : List Nat :=
  let n := c.toNat
  if n < 0x80 then [n]
  else if n < 0x800 then [0xC0 + n / 64, 0x80 + n % 64]
  else if n < 0x10000 then [0xE0 + n / 4096, 0x80 + n / 64 % 64, 0x80 + n % 64]
  else [0xF0 + n / 262144, 0x80 + n / 4096 % 64, 0x80 + n / 64 % 64, 0x80 + n % 64]

/-- The bytes of a key: the UTF-8 encodings of its characters, in order. -/
def keyBytes (name : String) : List Nat := name.data.flatMap utf8Bytes

/-- The upper-case hexadecimal digit of a value below 16. -/
def hexDigit (n : Nat) : Char :=
  if n < 10 then Char.ofNat (48 + n) else Char.ofNat (55 + n)

/-- The percent triplet of a byte: `%` and its two upper-case hexadecimal digits. -/
def percentByte (b : Nat) : List Char := ['%', hexDigit (b / 16), hexDigit (b % 16)]

/-- The unreserved characters: ASCII letters, ASCII digits and `-_.~`. -/
def isUnreserved (c : Char) : Bool :=
  c.isAlphanum || c == '-' || c == '_' || c == '.' || c == '~'

/-- The encoding of one character of a key: an unreserved character passes
through, any other is encoded byte by byte as percent triplets. -/
def encodeChar (c : Char) : List Char :=
  if isUnreserved c then [c] else (utf8Bytes c).flatMap percentByte

/-- Modelled from the spec: the function `urlEncodeName` of minio-go, of which the
sources only hold the tests. "Alphanumerics and `-_.~` pass through unencoded;
space encodes to %20; the percent character itself encodes to %25; any
multi-byte (non-ASCII) character encodes byte-by-byte as uppercase-hex percent
triplets", and every other character outside the unreserved set is
percent-encoded too. The result is the Go pair `(string, error)`; a `String`
holds Unicode scalar values, so the keys of this model are the valid UTF-8
keys. -/
def urlEncodeName (name : String) : Except String String :=
  .ok ⟨name.data.flatMap encodeChar⟩

/-- The unreserved bytes: the codes of ASCII letters, ASCII digits and `-_.~`. -/
def isUnreservedByte (b : Nat) : Bool :=
  (65 ≤ b && b ≤ 90) || (97 ≤ b && b ≤ 122) || (48 ≤ b && b ≤ 57) ||
  b == 45 || b == 95 || b == 46 || b == 126

/-- The encoding of one byte as the claim words it: the byte itself when it is
unreserved, its percent triplet otherwise. -/
def encodeByte (b : Nat) : List Char :=
  if isUnreservedByte b then [Char.ofNat b] else percentByte b

/-- The value of a hexadecimal digit, of either case. -/
def unhex (c : Char) : Option Nat :=
  let n := c.toNat
  if 48 ≤ n ∧ n ≤ 57 then some (n - 48)
  else if 65 ≤ n ∧ n ≤ 70 then some (n - 55)
  else if 97 ≤ n ∧ n ≤ 102 then some (n - 87)
  else none

/-- Percent-decoding to bytes: `%` and two hexadecimal digits give the byte of
that value, any other character stands for its own bytes, and a `%` without
two hexadecimal digits is an error. -/
def percentDecode : List Char → Option (List Nat)
  | [] => some []
  | c :: rest =>
    if c = '%' then
      match rest with
      | h :: l :: rest1 =>
        match unhex h, unhex l, percentDecode rest1 with
        | some a, some b, some bytes => some ((16 * a + b) :: bytes)
        | _, _, _ => none
      | _ => none
    else
      match percentDecode rest with
      | some bytes => some (utf8Bytes c ++ bytes)
      | none => none

/-- The first character of a UTF-8 byte sequence, by the length its lead byte
announces, with the bytes after it. -/
def decodeRune : List Nat → Option (Char × List Nat)
  | [] => none
  | b0 :: rest =>
    if b0 < 0x80 then some (Char.ofNat b0, rest)
    else if b0 < 0xE0 then
      match rest with
      | b1 :: rest1 => some (Char.ofNat ((b0 - 0xC0) * 64 + (b1 - 0x80)), rest1)
      | _ => none
    else if b0 < 0xF0 then
      match rest with
      | b1 :: b2 :: rest1 =>
        some (Char.ofNat ((b0 - 0xE0) * 4096 + (b1 - 0x80) * 64 + (b2 - 0x80)), rest1)
      | _ => none
    else
      match rest with
      | b1 :: b2 :: b3 :: rest1 =>
        some (Char.ofNat ((b0 - 0xF0) * 262144 + (b1 - 0x80) * 4096 + (b2 - 0x80) * 64 +
          (b3 - 0x80)), rest1)
      | _ => none

/-- Reads at most `fuel` characters off a UTF-8 byte sequence. -/
def utf8CharsAux : Nat → List Nat → List Char
  | 0, _ => []
  | fuel + 1, bytes =>
    match decodeRune bytes with
    | some (c, rest) => c :: utf8CharsAux fuel rest
    | none => []

/-- Reads bytes as UTF-8, one character after the other (a sequence of bytes
holds at most as many characters as bytes). -/
def utf8Chars (bytes : List Nat) : List Char := utf8CharsAux bytes.length bytes

/-- The key a byte sequence is the UTF-8 form of, when there is one. -/
def bytesToKey (bytes : List Nat) : Option String :=
  if keyBytes ⟨utf8Chars bytes⟩ = bytes then some ⟨utf8Chars bytes⟩ else none

/-- The decoding of an encoded key for display: percent-decoding, then the
bytes read back as a key. -/
def urlDecodeName (encoded : String) : Option String :=
  match percentDecode encoded.data with
  | some bytes => bytesToKey bytes
  | none => none

/-! ## Bucket ACL (minio-go, known here through api_test.go and the specification) -/

/-- The type `BucketACL` of minio-go: a string. -/
abbrev BucketACL := String

/-- The four canonical ACL values of the specification. -/
def canonicalACLs : List BucketACL :=
  ["private", "public-read", "public-read-write", "authenticated-read"]

/-- Modelled from the spec: the method `isValidBucketACL` of minio-go, of which the
sources only hold the test. "One of `private`, `public-read`,
`public-read-write`, `authenticated-read`; any other string is invalid." -/
def isValidBucketACL (b : BucketACL) : Bool := decide (b ∈ canonicalACLs)

/-! ## Sessions (session-v1.go) -/

/-- The struct `sessionV1` of session-v1.go, without the start time and the lock. -/
structure sessionV1 where
  Version : String
  CommandType : String
  SessionID : String
  URLs : List String
  Files : List (String × Bool)
deriving DecidableEq, Repr

/-- What the session functions read of their surroundings: the helpers
`isSessionDirExists` and `getSessionDir` (Go pair of folder and error),
`filepath.Glob` (Go pair of matches and error), `filepath.Join`, `os.Stat`
(its error), `quick.New` (its error) and `qs.Load` followed by `qs.Data()`
(the record read from a file, started from the given record). -/
structure SessionEnv where
  isSessionDirExists : Bool
  getSessionDir : String × Option probeError
  Glob : String → List String × Option probeError
  Join : String → String → String
  Stat : String → Option probeError
  quickNew : sessionV1 → Option probeError
  quickLoad : sessionV1 → String → Except probeError sessionV1

/-- The function `filepath.Base` of Go (Unix): the last element of a path, after
trailing slashes are removed; `.` for the empty path and `/` for a path of
slashes only. -/
def Base (path : String) : String :=
  if path = "" then "."
  else
    let stripped := (path.data.reverse.dropWhile (fun c => c == '/')).reverse
    let last := (stripped.reverse.takeWhile (fun c => c != '/')).reverse
    if last.isEmpty then "/" else ⟨last⟩

/-- The match `sidReg.Match([]byte(sid))` with `sidReg` the regular expression
`^[a-zA-Z]{8}$`: exactly eight ASCII letters. -/
def sidMatch (sid : String) : Bool :=
  sid.data.length == 8 && sid.data.all Char.isAlpha

/-- The function `getSessionFileV1` of session-v1.go. -/
def getSessionFileV1 (env : SessionEnv) (sid : String) : Except probeError String :=
  match env.getSessionDir with
  | (_, some err) => .error err
  | (sessionDir, none) =>
    let sessionFile := env.Join sessionDir sid
    match env.Stat sessionFile with
    | some err => .error err
    | none => .ok sessionFile

/-- The function `loadSessionV1` of session-v1.go; the result is the Go pair of
the record (`none` for nil) and the error. -/
def loadSessionV1 (env : SessionEnv) (sid : String) : Option sessionV1 × Option probeError :=
  if !env.isSessionDirExists then
    (none, some ⟨"Session folder does not exist."⟩)
  else
    match getSessionFileV1 env sid with
    | .error err => (none, some err)
    | .ok sessionFile =>
      let s : sessionV1 :=
        { Version := "1.0.0", CommandType := "", SessionID := "", URLs := [], Files := [] }
      match env.quickNew s with
      | some err => (none, some err)
      | none =>
        match env.quickLoad s sessionFile with
        | .error err => (none, some err)
        | .ok data => (some data, none)

/-- How a call of `getSessionIDsV1` ends: it returns the session ids, the
process exits after a fatal report, or it panics on a nil record. -/
inductive Ending where
  | returned (sids : List String)
  | exited (code : Nat)
  | panicked
deriving DecidableEq, Repr

/-- A run of `getSessionIDsV1`: the fatal reports, the session ids
`loadSessionV1` was called on, in order, and the ending. -/
structure SessionsRun where
  events : List Event
  loaded : List String
  ending : Ending
deriving DecidableEq, Repr

/-- The loop of `getSessionIDsV1` over the listed paths; `sids` are the ids
appended so far. -/
def sessionLoop (IsTesting : Bool) (env : SessionEnv) :
    List String → List String → SessionsRun
  | [], sids => ⟨[], [], Ending.returned sids⟩
  | path :: rest, sids =>
    let sid := Base path
    if sidMatch sid then
      match loadSessionV1 env sid with
      | (record, err) =>
        match fatalIf IsTesting err ("Unable to load session ‘" ++ sid ++ "’.") with
        | (evs, some code) => ⟨evs, [sid], Ending.exited code⟩
        | (evs, none) =>
          match record with
          | none => ⟨evs, [sid], Ending.panicked⟩
          | some session =>
            let r :=
              if session.Version ≠ "1.0.0" then sessionLoop IsTesting env rest sids
              else sessionLoop IsTesting env rest (sids ++ [sid])
            ⟨evs ++ r.events, sid :: r.loaded, r.ending⟩
    else sessionLoop IsTesting env rest sids

/-- The function `getSessionIDsV1` of session-v1.go. -/
def getSessionIDsV1 (IsTesting : Bool) (env : SessionEnv) : SessionsRun :=
  match env.getSessionDir with
  | (sessionDir, err) =>
    match fatalIf IsTesting err "Unable to determine session folder." with
    | (evs, some code) => ⟨evs, [], Ending.exited code⟩
    | (evs, none) =>
      match env.Glob (sessionDir ++ "/*") with
      | (sessionList, e) =>
        match fatalIf IsTesting e ("Unable to access session folder ‘" ++ sessionDir ++ "’.") with
        | (evs1, some code) => ⟨evs ++ evs1, [], Ending.exited code⟩
        | (evs1, none) =>
          let r := sessionLoop IsTesting env sessionList []
          ⟨evs ++ evs1 ++ r.events, r.loaded, r.ending⟩

/-- Whether the record `loadSessionV1` gives for a session id has the version
`1.0.0`. -/
def loadedVersionOk (env : SessionEnv) (sid : String) : Bool :=
  match (loadSessionV1 env sid).1 with
  | some session => decide (session.Version = "1.0.0")
  | none => false

/-! ## Example data -/

/-- Two credentials for the closed examples. -/
def credA : hostConfig := ⟨"keyA", "secretA", "S3v4"⟩

/-- The second credential for the closed examples. -/
def credB : hostConfig := ⟨"keyB", "secretB", "S3v4"⟩

/-- A third credential for the closed examples. -/
def credC : hostConfig := ⟨"keyC", "secretC", "S3v4"⟩

/-- A URL parser for the closed examples: every URL is an object-storage URL
on host `s3.example.com`. -/
def exampleNewURL (_ : String) : clientURL := ⟨URLType.Object, "s3.example.com"⟩

/-- The URL looked up in the closed examples. -/
def exampleURL : String := "https://s3.example.com/bucket"

/-- An alias resolver for the closed examples: no alias applies. -/
def exampleAliasURL (arg : String) (_ : List (String × String)) : String := arg

/-- A client factory for the closed examples: the client of a target is the
target itself. -/
def exampleUrl2Client (targetURL : String) : Except probeError String := .ok targetURL

/-- A store for the closed examples: the world is the list of buckets, and
making a bucket that is already there is an error. -/
def exampleMakeBucket (clnt : String) (w : List String) : Option probeError × List String :=
  if clnt ∈ w then (some ⟨"Bucket already exists."⟩, w) else (none, w ++ [clnt])

/-- A URL parser for the closed examples that classifies every URL as a
filesystem path. -/
def exampleFsURL (_ : String) : clientURL := ⟨URLType.Filesystem, ""⟩

/-- A session folder for the closed examples: `/s` lists `abcdefgh` (version
1.0.0), `notes.txt`, `ijklmnop` (version 2.0.0) and `qrstuvwx` (version 1.0.0). -/
def exampleSessions : SessionEnv where
  isSessionDirExists := true
  getSessionDir := ("/s", none)
  Glob := fun _ => (["/s/abcdefgh", "/s/notes.txt", "/s/ijklmnop", "/s/qrstuvwx"], none)
  Join := fun dir name => dir ++ "/" ++ name
  Stat := fun _ => none
  quickNew := fun _ => none
  quickLoad := fun s file =>
    if file = "/s/notes.txt" then .error ⟨"invalid character in session file"⟩
    else if file = "/s/ijklmnop" then .ok { s with Version := "2.0.0" }
    else .ok s

/-- The same session folder with the file of `ijklmnop` unreadable. -/
def brokenSessions : SessionEnv :=
  { exampleSessions with
    quickLoad := fun s file =>
      if file = "/s/ijklmnop" then .error ⟨"unexpected end of JSON input"⟩ else .ok s }

/-! ## `filepath.Match`: the fuel of the model suffices -/

theorem getEsc_shorter (chunk : List Char) (c : Char) (rest : List Char)
    (h : getEsc chunk = .ok (c, rest)) : rest.length < chunk.length := by
  unfold getEsc at h
  split at h
  all_goals first
    | cases h
    | (split_ifs at h; cases h; simp only [List.length_cons]; omega)

theorem getEsc_error (chunk : List Char) (e : String) (h : getEsc chunk = .error e) :
    e = ErrBadPattern := by
  unfold getEsc at h
  split at h
  all_goals first
    | (cases h; rfl)
    | (split_ifs at h; cases h; rfl)

theorem matchClass_fuel (r : Char) (fuel : Nat) :
    ∀ (found : Bool) (nrange : Nat) (chunk : List Char), chunk.length < fuel →
      matchClass r fuel found nrange chunk ≠ .error outOfFuel ∧
      ∀ f rest, matchClass r fuel found nrange chunk = .ok (f, rest) →
        rest.length < chunk.length := by
  induction fuel with
  | zero => intro _ _ chunk h; omega
  | succ fuel ih =>
    intro found nrange chunk hlen
    unfold matchClass
    split
    · refine ⟨by simp, ?_⟩
      intro f rest h
      cases h
      simp
    · rename_i chunk _ _ _
      cases hesc : getEsc chunk with
      | error e =>
        have he := getEsc_error chunk e hesc
        subst he
        simp only
        exact ⟨by decide, by intro f rest h; cases h⟩
      | ok p =>
        obtain ⟨lo, chunk1⟩ := p
        have h1 := getEsc_shorter chunk lo chunk1 hesc
        simp only
        split
        · rename_i cs
          cases hesc2 : getEsc cs with
          | error e =>
            have he := getEsc_error cs e hesc2
            subst he
            simp only
            exact ⟨by decide, by intro f rest h; cases h⟩
          | ok q =>
            obtain ⟨hi, chunk2⟩ := q
            have h2 := getEsc_shorter cs hi chunk2 hesc2
            simp only [List.length_cons] at h1
            simp only
            have hrec := ih (found || (decide (lo ≤ r) && decide (r ≤ hi))) (nrange + 1) chunk2
              (by omega)
            exact ⟨hrec.1, fun f rest h => by have := hrec.2 f rest h; omega⟩
        · have hrec := ih (found || (decide (lo ≤ r) && decide (r ≤ lo))) (nrange + 1) chunk1
            (by omega)
          exact ⟨hrec.1, fun f rest h => by have := hrec.2 f rest h; omega⟩

theorem matchChunk_fuel (fuel : Nat) :
    ∀ (chunk s : List Char), chunk.length < fuel → matchChunk fuel chunk s ≠ .bad outOfFuel := by
  induction fuel with
  | zero => intro chunk _ h; omega
  | succ fuel ih =>
    intro chunk s hlen
    rw [matchChunk.eq_def]
    simp only
    split
    · simp
    · simp
    · rename_i p chunk1 c s1
      simp only [List.length_cons, Nat.add_lt_add_iff_right] at hlen
      split_ifs
      · split
        · simp only [ne_eq, ChunkResult.bad.injEq]
          decide
        · rename_i n cs
          have hcl := matchClass_fuel c
            ((if decide (n = '^') = true then cs else n :: cs).length + 1)
            false 0 (if decide (n = '^') = true then cs else n :: cs) (by omega)
          have hle : (if decide (n = '^') = true then cs else n :: cs).length ≤
              (n :: cs).length := by
            split_ifs <;> simp
          split
          · rename_i e he
            intro hbad
            cases hbad
            exact hcl.1 he
          · rename_i found chunk2 hok
            have h2 := hcl.2 found chunk2 hok
            split_ifs
            · simp
            · exact ih chunk2 s1 (by omega)
      · simp
      · exact ih chunk1 s1 hlen
      · split
        · simp only [ne_eq, ChunkResult.bad.injEq]
          decide
        · rename_i e chunk2
          simp only [List.length_cons] at hlen
          split_ifs
          · simp
          · exact ih chunk2 s1 (by omega)
      · simp
      · exact ih chunk1 s1 hlen

theorem starLoop_fuel (chunk : List Char) (lastChunk : Bool) (name : List Char) :
    starLoop chunk lastChunk name ≠ .bad outOfFuel := by
  induction name with
  | nil => simp [starLoop]
  | cons c rest ih =>
    rw [starLoop]
    split_ifs
    · simp
    · have hm := matchChunk_fuel (chunk.length + 1) chunk rest (by omega)
      split
      · split_ifs
        · exact ih
        · simp
      · rename_i e he
        intro hbad
        cases hbad
        exact hm he
      · exact ih

theorem scanChunkLoop_length_aux (n : Nat) :
    ∀ (inrange : Bool) (l : List Char), l.length ≤ n →
      (scanChunkLoop inrange l).1.length + (scanChunkLoop inrange l).2.length = l.length := by
  induction n with
  | zero =>
    intro inrange l h
    cases l with
    | nil => simp [scanChunkLoop]
    | cons c cs => simp at h
  | succ n ih =>
    intro inrange l h
    cases l with
    | nil => simp [scanChunkLoop]
    | cons c cs =>
      simp only [List.length_cons, Nat.add_le_add_iff_right] at h
      rw [scanChunkLoop.eq_def]
      simp only
      split_ifs
      · cases cs with
        | nil => simp
        | cons d ds =>
          have := ih inrange ds (by simp only [List.length_cons] at h; omega)
          simp only [List.length_cons]
          omega
      · have := ih true cs h
        simp only [List.length_cons]
        omega
      · have := ih false cs h
        simp only [List.length_cons]
        omega
      · have := ih inrange cs h
        simp only [List.length_cons]
        omega
      · simp
      · have := ih inrange cs h
        simp only [List.length_cons]
        omega

theorem scanChunkLoop_length (inrange : Bool) (l : List Char) :
    (scanChunkLoop inrange l).1.length + (scanChunkLoop inrange l).2.length = l.length :=
  scanChunkLoop_length_aux l.length inrange l (Nat.le_refl _)

theorem scanChunkLoop_ne_nil (c : Char) (cs : List Char) (hc : c ≠ '*') :
    (scanChunkLoop false (c :: cs)).1 ≠ [] := by
  rw [scanChunkLoop.eq_def]
  simp only
  split_ifs
  · cases cs <;> simp
  all_goals simp

theorem scanChunk_rest_lt (pattern : List Char) (hne : pattern ≠ [])
    (hgo : ¬ ((scanChunk pattern).1 = true ∧ (scanChunk pattern).2.1 = [])) :
    (scanChunk pattern).2.2.length < pattern.length := by
  have hlen := scanChunkLoop_length false (pattern.dropWhile (fun c => c == '*'))
  have hle : (pattern.dropWhile (fun c => c == '*')).length ≤ pattern.length :=
    (List.dropWhile_sublist _).length_le
  simp only [scanChunk, decide_eq_true_eq] at hgo ⊢
  by_cases hchunk : (scanChunkLoop false (pattern.dropWhile (fun c => c == '*'))).1 = []
  · have hstar : ¬ (pattern.dropWhile (fun c => c == '*')).length < pattern.length :=
      fun h => hgo ⟨h, hchunk⟩
    exfalso
    cases hd : pattern.dropWhile (fun c => c == '*') with
    | nil =>
      rw [hd] at hstar
      cases pattern with
      | nil => exact hne rfl
      | cons a as => simp at hstar
    | cons c cs =>
      have hhead := List.head_dropWhile_not (fun c => c == '*') pattern (by rw [hd]; simp)
      simp only [hd, List.head_cons, beq_iff_eq] at hhead
      rw [hd] at hchunk
      exact scanChunkLoop_ne_nil c cs (by simpa using hhead) hchunk
  · have hpos : 0 < (scanChunkLoop false (pattern.dropWhile (fun c => c == '*'))).1.length :=
      List.length_pos.mpr hchunk
    omega

theorem matchLoop_fuel (fuel : Nat) :
    ∀ (pattern name : List Char), pattern.length < fuel →
      matchLoop fuel pattern name ≠ .error outOfFuel := by
  induction fuel with
  | zero => intro pattern _ h; omega
  | succ fuel ih =>
    intro pattern name hlen
    rw [matchLoop]
    split
    · simp
    rename_i hempty
    simp only
    split
    · simp
    rename_i hstop
    · have hne : pattern ≠ [] := by
        intro h
        simp [h] at hempty
      have hrest : (scanChunk pattern).2.2.length < fuel := by
        have := scanChunk_rest_lt pattern hne (by
          intro h
          apply hstop
          simp [h.1, h.2])
        omega
      have hm := matchChunk_fuel ((scanChunk pattern).2.1.length + 1) (scanChunk pattern).2.1
        name (by omega)
      have hs := starLoop_fuel (scanChunk pattern).2.1 (scanChunk pattern).2.2.isEmpty name
      split
      · split_ifs
        · exact ih _ _ hrest
        · split
          · exact ih _ _ hrest
          · rename_i e he
            intro hbad
            cases hbad
            exact hs he
          · simp
        · simp
      · rename_i e he
        intro hbad
        cases hbad
        exact hm he
      · split_ifs
        · split
          · exact ih _ _ hrest
          · rename_i e he
            intro hbad
            cases hbad
            exact hs he
          · simp
        · simp

/-- The fuel of `filepathMatch` suffices: it never ends with the mark `outOfFuel`, so
every result is `.ok true`, `.ok false` or an error the Go function reports. -/
theorem filepathMatch_fuel (pattern name : String) :
    filepathMatch pattern name ≠ .error outOfFuel :=
  matchLoop_fuel _ _ _ (Nat.lt_succ_self _)

/-! ## Host lookup: lemmas -/

theorem lookup_of_mem {β : Type} (m : List (String × β)) (k : String) (v : β)
    (hwf : wellFormedMap m) (hmem : (k, v) ∈ m) : m.lookup k = some v := by
  induction m with
  | nil => simp at hmem
  | cons e rest ih =>
    obtain ⟨k1, v1⟩ := e
    simp only [wellFormedMap, mapKeys, List.map_cons, List.nodup_cons, List.mem_map,
      Prod.exists, exists_and_right, exists_eq_right, not_exists] at hwf
    rcases List.mem_cons.mp hmem with h | h
    · cases h
      simp [List.lookup]
    · have hne : k ≠ k1 := by
        rintro rfl
        exact hwf.1 v h
      have hb : (k == k1) = false := by simpa using hne
      simp only [List.lookup, hb]
      exact ih hwf.2 h

theorem lookup_none_of_not_key {β : Type} (m : List (String × β)) (k : String)
    (hkey : k ∉ mapKeys m) : m.lookup k = none := by
  induction m with
  | nil => rfl
  | cons e rest ih =>
    obtain ⟨k1, v1⟩ := e
    simp only [mapKeys, List.map_cons, List.mem_cons, not_or] at hkey
    have hb : (k == k1) = false := by simpa using hkey.1
    simp only [List.lookup, hb]
    exact ih hkey.2

theorem rangeHosts_none (fmatch : String → String → Except String Bool) (URL host : String)
    (m : List (String × hostConfig))
    (hnone : ∀ e ∈ m, visitHost fmatch URL host e = none) :
    rangeHosts fmatch URL host m = (hostConfig.zero, some (errNoMatchingHost URL)) := by
  induction m with
  | nil => rfl
  | cons e rest ih =>
    simp only [rangeHosts, hnone e (List.mem_cons_self _ _)]
    exact ih (fun e1 h1 => hnone e1 (List.mem_cons_of_mem _ h1))

theorem rangeHosts_append (fmatch : String → String → Except String Bool) (URL host : String)
    (pre post : List (String × hostConfig))
    (hnone : ∀ e ∈ pre, visitHost fmatch URL host e = none) :
    rangeHosts fmatch URL host (pre ++ post) = rangeHosts fmatch URL host post := by
  induction pre with
  | nil => rfl
  | cons e rest ih =>
    simp only [List.cons_append, rangeHosts, hnone e (List.mem_cons_self _ _)]
    exact ih (fun e1 h1 => hnone e1 (List.mem_cons_of_mem _ h1))

theorem rangeHosts_common (fmatch : String → String → Except String Bool) (URL host : String)
    (m : List (String × hostConfig)) (r : hostConfig × Option probeError)
    (hsome : ∃ e ∈ m, visitHost fmatch URL host e = some r)
    (hall : ∀ e ∈ m, ∀ r1, visitHost fmatch URL host e = some r1 → r1 = r) :
    rangeHosts fmatch URL host m = r := by
  induction m with
  | nil => simp at hsome
  | cons e rest ih =>
    cases hv : visitHost fmatch URL host e with
    | some r1 =>
      simp only [rangeHosts, hv]
      exact hall e (List.mem_cons_self _ _) r1 hv
    | none =>
      simp only [rangeHosts, hv]
      apply ih
      · obtain ⟨e1, hmem, h1⟩ := hsome
        rcases List.mem_cons.mp hmem with h | h
        · subst h
          rw [hv] at h1
          cases h1
        · exact ⟨e1, h, h1⟩
      · exact fun e1 h1 => hall e1 (List.mem_cons_of_mem _ h1)

theorem visitHost_of_false (fmatch : String → String → Except String Bool) (URL host : String)
    (e : String × hostConfig) (h : fmatch e.1 host = .ok false) :
    visitHost fmatch URL host e = none := by
  simp [visitHost, h]

theorem containsText_glob (glob request : String) :
    containsText (errInvalidGlobURL glob request).Cause glob := by
  refine ⟨"Error reading glob URL ‘".data, ("’ while comparing with ‘" ++ request ++ "’.").data, ?_⟩
  simp [errInvalidGlobURL, String.data_append]

theorem containsText_request (glob request : String) :
    containsText (errInvalidGlobURL glob request).Cause request := by
  refine ⟨("Error reading glob URL ‘" ++ glob ++ "’ while comparing with ‘").data, "’.".data, ?_⟩
  simp [errInvalidGlobURL, String.data_append]

theorem containsText_noMatch (URL : String) :
    containsText (errNoMatchingHost URL).Cause URL := by
  refine ⟨"No matching host found for the given URL ‘".data, "’.".data, ?_⟩
  simp [errNoMatchingHost, String.data_append]

/-! ## Host lookup: properties -/

/-- C1: for a loaded configuration and a non-filesystem URL whose host is exactly a
key of `config.Hosts`, `getHostConfig` returns the credential stored under that
key with no error, whatever the other patterns of `config.Hosts` match. -/
theorem getHostConfig_exact_key (config : mcConfig) (NewURL : String → clientURL)
    (fmatch : String → String → Except String Bool) (URL : String) (hostCfg : hostConfig)
    (hwf : wellFormedMap config.Hosts)
    (hobj : (NewURL URL).Kind ≠ URLType.Filesystem)
    (hkey : ((NewURL URL).Host, hostCfg) ∈ config.Hosts) :
    getHostConfig (.ok config) NewURL fmatch URL = (hostCfg, none) := by
  simp only [getHostConfig, if_neg hobj, lookup_of_mem _ _ _ hwf hkey]

/-- The scenario of C1: with `*.example.com -> credA` visited first and
`s3.example.com -> credB`, where the glob matches too, the lookup gives `credB`. -/
theorem getHostConfig_exact_key_witness :
    filepathMatch "*.example.com" "s3.example.com" = .ok true ∧
    getHostConfig (.ok ⟨[("*.example.com", credA), ("s3.example.com", credB)], []⟩)
      exampleNewURL filepathMatch exampleURL = (credB, none) :=
  ⟨by decide,
   getHostConfig_exact_key ⟨[("*.example.com", credA), ("s3.example.com", credB)], []⟩
     exampleNewURL filepathMatch exampleURL credB (by decide) (by decide) (by decide)⟩

theorem lookup_isSome_of_key {β : Type} (m : List (String × β)) (k : String)
    (hkey : k ∈ mapKeys m) : ∃ v, m.lookup k = some v := by
  induction m with
  | nil => simp [mapKeys] at hkey
  | cons e rest ih =>
    obtain ⟨k1, v1⟩ := e
    by_cases hk : k = k1
    · subst hk
      exact ⟨v1, by simp [List.lookup]⟩
    · have hb : (k == k1) = false := by simpa using hk
      simp only [mapKeys, List.map_cons, List.mem_cons] at hkey
      rcases hkey with h | h
      · exact absurd h hk
      · obtain ⟨v, hv⟩ := ih h
        exact ⟨v, by simp only [List.lookup, hb, hv]⟩

theorem lookup_perm {β : Type} (m1 m2 : List (String × β)) (k : String)
    (hwf : wellFormedMap m1) (hperm : m1.Perm m2) : m1.lookup k = m2.lookup k := by
  have hwf2 : wellFormedMap m2 := (hperm.map Prod.fst).nodup_iff.mp hwf
  cases h1 : m1.lookup k with
  | some v =>
    have hmem : (k, v) ∈ m1 := by
      clear hwf hperm hwf2
      induction m1 with
      | nil => simp [List.lookup] at h1
      | cons e rest ih =>
        obtain ⟨k1, v1⟩ := e
        by_cases hk : k = k1
        · subst hk
          simp [List.lookup] at h1
          subst h1
          exact List.mem_cons_self _ _
        · have hb : (k == k1) = false := by simpa using hk
          simp only [List.lookup, hb] at h1
          exact List.mem_cons_of_mem _ (ih h1)
    exact (lookup_of_mem m2 k v hwf2 (hperm.mem_iff.mp hmem)).symm
  | none =>
    have hkey : k ∉ mapKeys m1 := by
      clear hwf hperm hwf2
      induction m1 with
      | nil => simp [mapKeys]
      | cons e rest ih =>
        obtain ⟨k1, v1⟩ := e
        by_cases hk : k = k1
        · subst hk
          simp [List.lookup] at h1
        · have hb : (k == k1) = false := by simpa using hk
          simp only [List.lookup, hb] at h1
          simp only [mapKeys, List.map_cons, List.mem_cons, not_or]
          exact ⟨hk, ih h1⟩
    have hkey2 : k ∉ mapKeys m2 := fun h => hkey ((hperm.map Prod.fst).mem_iff.mpr h)
    exact (lookup_none_of_not_key m2 k hkey2).symm

theorem rangeHosts_perm (fmatch : String → String → Except String Bool) (URL host : String)
    (m1 m2 : List (String × hostConfig)) (hperm : m1.Perm m2)
    (hsame : ∀ e1 ∈ m1, ∀ e2 ∈ m1, ∀ r1 r2, visitHost fmatch URL host e1 = some r1 →
      visitHost fmatch URL host e2 = some r2 → r1 = r2) :
    rangeHosts fmatch URL host m1 = rangeHosts fmatch URL host m2 := by
  by_cases hstop : ∃ e ∈ m1, ∃ r, visitHost fmatch URL host e = some r
  · obtain ⟨e, hmem, r, hr⟩ := hstop
    rw [rangeHosts_common fmatch URL host m1 r ⟨e, hmem, hr⟩
        (fun e1 h1 r1 hr1 => hsame e1 h1 e hmem r1 r hr1 hr),
      rangeHosts_common fmatch URL host m2 r ⟨e, hperm.mem_iff.mp hmem, hr⟩
        (fun e1 h1 r1 hr1 => hsame e1 (hperm.mem_iff.mpr h1) e hmem r1 r hr1 hr)]
  · have hnone : ∀ e ∈ m1, visitHost fmatch URL host e = none := by
      intro e hmem
      cases hv : visitHost fmatch URL host e with
      | none => rfl
      | some r => exact absurd ⟨e, hmem, r, hv⟩ hstop
    rw [rangeHosts_none fmatch URL host m1 hnone,
      rangeHosts_none fmatch URL host m2 (fun e h => hnone e (hperm.mem_iff.mpr h))]

/-- C3, refuted as stated: the same map `*.example.com -> credA`, `s3.* -> credB`
visited in its two orders gives `credA` in one and `credB` in the other for the
host `s3.example.com`, which both patterns match. -/
theorem getHostConfig_order_counterexample :
    wellFormedMap [("*.example.com", credA), ("s3.*", credB)] ∧
    List.Perm [("*.example.com", credA), ("s3.*", credB)]
      [("s3.*", credB), ("*.example.com", credA)] ∧
    getHostConfig (.ok ⟨[("*.example.com", credA), ("s3.*", credB)], []⟩)
      exampleNewURL filepathMatch exampleURL = (credA, none) ∧
    getHostConfig (.ok ⟨[("s3.*", credB), ("*.example.com", credA)], []⟩)
      exampleNewURL filepathMatch exampleURL = (credB, none) ∧
    credA ≠ credB :=
  ⟨by decide, List.Perm.swap _ _ _, by decide, by decide, by decide⟩

/-- C3, amended: for a fixed configuration and URL the result of `getHostConfig`
(same credential or same error) does not depend on the order in which the
entries of `config.Hosts` are visited, provided that the URL is a filesystem
URL, or its host is itself a key of `config.Hosts`, or all entries at which the
glob loop can stop (a pattern matching the host, or a malformed pattern) make
it return the same result. -/
theorem getHostConfig_order_independent (config1 config2 : mcConfig)
    (NewURL : String → clientURL) (fmatch : String → String → Except String Bool)
    (URL : String)
    (hwf : wellFormedMap config1.Hosts)
    (hperm : config1.Hosts.Perm config2.Hosts)
    (hcond : (NewURL URL).Kind = URLType.Filesystem ∨
      (NewURL URL).Host ∈ mapKeys config1.Hosts ∨
      ∀ e1 ∈ config1.Hosts, ∀ e2 ∈ config1.Hosts,
        visitHost fmatch URL (NewURL URL).Host e1 ≠ none →
        visitHost fmatch URL (NewURL URL).Host e2 ≠ none →
        visitHost fmatch URL (NewURL URL).Host e1 =
          visitHost fmatch URL (NewURL URL).Host e2) :
    getHostConfig (.ok config1) NewURL fmatch URL =
      getHostConfig (.ok config2) NewURL fmatch URL := by
  simp only [getHostConfig]
  by_cases hfs : (NewURL URL).Kind = URLType.Filesystem
  · simp only [if_pos hfs]
  · simp only [if_neg hfs]
    rw [← lookup_perm config1.Hosts config2.Hosts (NewURL URL).Host hwf hperm]
    rcases hcond with h | h | hsame
    · exact absurd h hfs
    · obtain ⟨v, hv⟩ := lookup_isSome_of_key config1.Hosts (NewURL URL).Host h
      simp only [hv]
    · rw [← rangeHosts_perm fmatch URL (NewURL URL).Host config1.Hosts config2.Hosts hperm
        (fun e1 h1 e2 h2 r1 r2 hr1 hr2 => by
          have h := hsame e1 h1 e2 h2 (by simp [hr1]) (by simp [hr2])
          rw [hr1, hr2] at h
          exact Option.some.inj h)]

/-- An instance of the amended C3: the host `s3.example.com` is itself a key, two
globs with different credentials match it too, and the map visited in one order
and in the reverse order gives the credential of the key. -/
theorem getHostConfig_order_independent_witness :
    getHostConfig
        (.ok ⟨[("*.example.com", credA), ("s3.*", credB), ("s3.example.com", credC)], []⟩)
        exampleNewURL filepathMatch exampleURL =
      getHostConfig
        (.ok ⟨[("s3.example.com", credC), ("s3.*", credB), ("*.example.com", credA)], []⟩)
        exampleNewURL filepathMatch exampleURL ∧
    getHostConfig
        (.ok ⟨[("*.example.com", credA), ("s3.*", credB), ("s3.example.com", credC)], []⟩)
        exampleNewURL filepathMatch exampleURL = (credC, none) :=
  ⟨getHostConfig_order_independent
      ⟨[("*.example.com", credA), ("s3.*", credB), ("s3.example.com", credC)], []⟩
      ⟨[("s3.example.com", credC), ("s3.*", credB), ("*.example.com", credA)], []⟩
      exampleNewURL filepathMatch exampleURL (by decide)
      (List.reverse_perm
        [("s3.example.com", credC), ("s3.*", credB), ("*.example.com", credA)]) (by decide),
   by decide⟩

/-- C6, refuted as stated: `[a` is a malformed pattern for the host
`s3.example.com`, yet with `s3.example.com` itself a key the lookup returns the
credential of that key and no error, in either visiting order. -/
theorem getHostConfig_malformed_counterexample :
    filepathMatch "[a" (exampleNewURL exampleURL).Host = .error ErrBadPattern ∧
    (exampleNewURL exampleURL).Kind ≠ URLType.Filesystem ∧
    getHostConfig (.ok ⟨[("[a", credA), ("s3.example.com", credB)], []⟩)
      exampleNewURL filepathMatch exampleURL = (credB, none) ∧
    getHostConfig (.ok ⟨[("s3.example.com", credB), ("[a", credA)], []⟩)
      exampleNewURL filepathMatch exampleURL = (credB, none) :=
  ⟨by decide, by decide, by decide, by decide⟩

/-- C6, amended: for a non-filesystem URL whose host is not itself a key of
`config.Hosts`, if the glob loop reaches a malformed pattern before any pattern
that matches the host (every entry visited before it is a well-formed
non-match), `getHostConfig` returns the zero `hostConfig` with
`errInvalidGlobURL`, whose message contains that pattern and the URL; it is
neither a credential without error nor the no-matching-host error. -/
theorem getHostConfig_malformed_glob (config : mcConfig) (NewURL : String → clientURL)
    (fmatch : String → String → Except String Bool) (URL globURL err : String)
    (hostCfg : hostConfig) (pre post : List (String × hostConfig))
    (hobj : (NewURL URL).Kind ≠ URLType.Filesystem)
    (hkey : (NewURL URL).Host ∉ mapKeys config.Hosts)
    (hvisit : config.Hosts = pre ++ (globURL, hostCfg) :: post)
    (hpre : ∀ e ∈ pre, fmatch e.1 (NewURL URL).Host = .ok false)
    (hbad : fmatch globURL (NewURL URL).Host = .error err) :
    getHostConfig (.ok config) NewURL fmatch URL =
      (hostConfig.zero, some (errInvalidGlobURL globURL URL)) ∧
    containsText (errInvalidGlobURL globURL URL).Cause globURL ∧
    containsText (errInvalidGlobURL globURL URL).Cause URL ∧
    errInvalidGlobURL globURL URL ≠ errNoMatchingHost URL := by
  refine ⟨?_, containsText_glob _ _, containsText_request _ _, ?_⟩
  · simp only [getHostConfig, if_neg hobj, lookup_none_of_not_key _ _ hkey]
    rw [hvisit, rangeHosts_append fmatch URL _ pre _
      (fun e h => visitHost_of_false fmatch URL _ e (hpre e h))]
    simp [rangeHosts, visitHost, hbad]
  · intro h
    have hd := congrArg (fun e => e.Cause.data.head?) h
    simp [errInvalidGlobURL, errNoMatchingHost, String.data_append] at hd

/-- An instance of the amended C6: `play.*` does not match `s3.example.com`, the
next pattern `[a` is malformed, and the lookup fails with `errInvalidGlobURL`. -/
theorem getHostConfig_malformed_glob_witness :
    getHostConfig (.ok ⟨[("play.*", credA), ("[a", credB), ("*.example.com", credA)], []⟩)
      exampleNewURL filepathMatch exampleURL =
      (hostConfig.zero, some (errInvalidGlobURL "[a" exampleURL)) ∧
    containsText (errInvalidGlobURL "[a" exampleURL).Cause "[a" ∧
    containsText (errInvalidGlobURL "[a" exampleURL).Cause exampleURL ∧
    errInvalidGlobURL "[a" exampleURL ≠ errNoMatchingHost exampleURL :=
  getHostConfig_malformed_glob
    ⟨[("play.*", credA), ("[a", credB), ("*.example.com", credA)], []⟩
    exampleNewURL filepathMatch exampleURL "[a" ErrBadPattern credB
    [("play.*", credA)] [("*.example.com", credA)]
    (by decide) (by decide) rfl (by decide) (by decide)

/-- C7, refuted as stated: the host `s3.example.com` is not a key of the map
`[a -> credA` and no key glob-matches it, yet the lookup does not give the
no-matching-host error: the pattern is malformed and the error is
`errInvalidGlobURL`. -/
theorem getHostConfig_noMatch_counterexample :
    (exampleNewURL exampleURL).Kind ≠ URLType.Filesystem ∧
    (exampleNewURL exampleURL).Host ∉ mapKeys [("[a", credA)] ∧
    (∀ e ∈ [("[a", credA)], filepathMatch e.1 (exampleNewURL exampleURL).Host ≠ .ok true) ∧
    filepathMatch "[a" (exampleNewURL exampleURL).Host = .error ErrBadPattern ∧
    getHostConfig (.ok ⟨[("[a", credA)], []⟩) exampleNewURL filepathMatch exampleURL =
      (hostConfig.zero, some (errInvalidGlobURL "[a" exampleURL)) ∧
    getHostConfig (.ok ⟨[("[a", credA)], []⟩) exampleNewURL filepathMatch exampleURL ≠
      (hostConfig.zero, some (errNoMatchingHost exampleURL)) :=
  ⟨by decide, by decide, by decide, by decide, by decide, by decide⟩

/-- C7, amended: for a non-filesystem URL whose host is not a key of
`config.Hosts` and for which every key is a well-formed pattern that does not
match the host, `getHostConfig` returns the zero `hostConfig` with
`errNoMatchingHost`, whose message contains the URL string passed in. -/
theorem getHostConfig_no_matching_host (config : mcConfig) (NewURL : String → clientURL)
    (fmatch : String → String → Except String Bool) (URL : String)
    (hobj : (NewURL URL).Kind ≠ URLType.Filesystem)
    (hkey : (NewURL URL).Host ∉ mapKeys config.Hosts)
    (hnone : ∀ e ∈ config.Hosts, fmatch e.1 (NewURL URL).Host = .ok false) :
    getHostConfig (.ok config) NewURL fmatch URL =
      (hostConfig.zero, some (errNoMatchingHost URL)) ∧
    containsText (errNoMatchingHost URL).Cause URL := by
  refine ⟨?_, containsText_noMatch _⟩
  simp only [getHostConfig, if_neg hobj, lookup_none_of_not_key _ _ hkey]
  exact rangeHosts_none fmatch URL _ _ (fun e h => visitHost_of_false fmatch URL _ e (hnone e h))

/-- An instance of the amended C7: neither `play.*` nor `*.minio.io` matches
`s3.example.com`, and the lookup fails with `errNoMatchingHost`. -/
theorem getHostConfig_no_matching_host_witness :
    getHostConfig (.ok ⟨[("play.*", credA), ("*.minio.io", credB)], []⟩)
      exampleNewURL filepathMatch exampleURL =
      (hostConfig.zero, some (errNoMatchingHost exampleURL)) ∧
    containsText (errNoMatchingHost exampleURL).Cause exampleURL :=
  getHostConfig_no_matching_host ⟨[("play.*", credA), ("*.minio.io", credB)], []⟩
    exampleNewURL filepathMatch exampleURL (by decide) (by decide) (by decide)

/-! ## The make-bucket command: properties -/

theorem checkArgs_pass (IsTesting : Bool) (args : List String)
    (hblank : ∀ a ∈ args, TrimSpace a ≠ "") : checkArgs IsTesting args = ([], none) := by
  induction args with
  | nil => rfl
  | cons a rest ih =>
    simp only [checkArgs, if_neg (hblank a (List.mem_cons_self _ _))]
    exact ih (fun b hb => hblank b (List.mem_cons_of_mem _ hb))

theorem makeBuckets_append {σ κ : Type} (config : mcConfig)
    (getAliasURL : String → List (String × String) → String)
    (url2Client : String → Except probeError κ)
    (MakeBucket : κ → σ → Option probeError × σ) (pre rest : List String) (w : σ)
    (hpre : (makeBuckets false config getAliasURL url2Client MakeBucket pre w).exitCode = none) :
    makeBuckets false config getAliasURL url2Client MakeBucket (pre ++ rest) w =
      Run.after (successEvents config getAliasURL pre)
        (makeBuckets false config getAliasURL url2Client MakeBucket rest
          (makeBuckets false config getAliasURL url2Client MakeBucket pre w).world) := by
  induction pre generalizing w with
  | nil => simp [makeBuckets, successEvents, Run.after]
  | cons a pre ih =>
    simp only [makeBuckets, List.cons_append] at hpre ⊢
    rcases hd : doMakeBucket url2Client MakeBucket (getAliasURL a config.Aliases) w with ⟨err, w1⟩
    rw [hd] at hpre
    cases err with
    | some e => simp [fatalIf, fatalQuitRoutine] at hpre
    | none =>
      simp only [fatalIf, Run.after] at hpre ⊢
      have h := ih w1 hpre
      simp only [List.append_eq, h]
      simp [Run.after, successEvents, List.flatMap_cons]

/-- C5, refuted as stated: with the bucket `b1` already there, `mc mb b1 b2`
fails on `b1`, reports it as fatal and exits with status 1; `b2` is neither
resolved nor attempted and nothing is reported for it. -/
theorem mainMakeBucket_abort_counterexample :
    doMakeBucket exampleUrl2Client exampleMakeBucket "b1" ["b1"] =
      (some ⟨"Bucket already exists."⟩, ["b1"]) ∧
    mainMakeBucket false ⟨[], []⟩ exampleAliasURL exampleUrl2Client exampleMakeBucket
      ["b1", "b2"] ["b1"] =
      ⟨[Event.resolve "b1" "b1", Event.doMakeBucket "b1",
        Event.fatal "Unable to make bucket ‘b1’." ⟨"Bucket already exists."⟩],
       ["b1"], some 1⟩ ∧
    Event.doMakeBucket "b2" ∉
      (mainMakeBucket false ⟨[], []⟩ exampleAliasURL exampleUrl2Client exampleMakeBucket
        ["b1", "b2"] ["b1"]).events :=
  ⟨by decide, by decide, by decide⟩

/-- C5, amended: in `mainMakeBucket` (outside testing mode), for an argument
list that passes `checkMakeBucketSyntax`, a failure of `doMakeBucket` on a
target, after the targets before it were made, ends the command there: each
earlier target was resolved, attempted and reported as a success, the failing
target is resolved, attempted and reported as fatal, the process exits with
status 1, and no later target is resolved or attempted. -/
theorem mainMakeBucket_failure_aborts {σ κ : Type} (config : mcConfig)
    (getAliasURL : String → List (String × String) → String)
    (url2Client : String → Except probeError κ)
    (MakeBucket : κ → σ → Option probeError × σ)
    (pre post : List String) (target : String) (w w2 : σ) (err : probeError)
    (hhelp : (pre ++ target :: post).head? ≠ some "help")
    (hblank : ∀ a ∈ pre ++ target :: post, TrimSpace a ≠ "")
    (hpre : (makeBuckets false config getAliasURL url2Client MakeBucket pre w).exitCode = none)
    (hfail : doMakeBucket url2Client MakeBucket (getAliasURL target config.Aliases)
      (makeBuckets false config getAliasURL url2Client MakeBucket pre w).world = (some err, w2)) :
    mainMakeBucket false config getAliasURL url2Client MakeBucket (pre ++ target :: post) w =
      ⟨successEvents config getAliasURL pre ++
        [Event.resolve target (getAliasURL target config.Aliases),
         Event.doMakeBucket (getAliasURL target config.Aliases),
         Event.fatal ("Unable to make bucket ‘" ++ getAliasURL target config.Aliases ++ "’.") err],
       w2, some 1⟩ := by
  have hne : (pre ++ target :: post).isEmpty = false := by
    cases pre <;> rfl
  have hcheck : checkMakeBucketSyntax false (pre ++ target :: post) = ([], none) := by
    simp only [checkMakeBucketSyntax, hne, Bool.false_or, decide_eq_true_eq, if_neg hhelp]
    exact checkArgs_pass false _ hblank
  simp only [mainMakeBucket, hcheck]
  rw [makeBuckets_append config getAliasURL url2Client MakeBucket pre (target :: post) w hpre]
  simp [makeBuckets, hfail, fatalIf, fatalQuitRoutine, Run.after]

/-- An instance of the amended C5: `mc mb b0 b1 b2` with `b1` already there
makes `b0`, fails on `b1` and exits without touching `b2`. -/
theorem mainMakeBucket_failure_aborts_witness :
    mainMakeBucket false ⟨[], []⟩ exampleAliasURL exampleUrl2Client exampleMakeBucket
      (["b0"] ++ "b1" :: ["b2"]) ["b1"] =
      ⟨successEvents ⟨[], []⟩ exampleAliasURL ["b0"] ++
        [Event.resolve "b1" (exampleAliasURL "b1" []),
         Event.doMakeBucket (exampleAliasURL "b1" []),
         Event.fatal ("Unable to make bucket ‘" ++ exampleAliasURL "b1" [] ++ "’.")
           ⟨"Bucket already exists."⟩],
       ["b1", "b0"], some 1⟩ :=
  mainMakeBucket_failure_aborts ⟨[], []⟩ exampleAliasURL exampleUrl2Client exampleMakeBucket
    ["b0"] ["b2"] "b1" ["b1"] ["b1", "b0"] ⟨"Bucket already exists."⟩
    (by decide) (by decide) (by decide) (by decide)

/-! ## Part size: properties -/

theorem ceilDiv_le_of_le_mul (a b n : Nat) (hb : 0 < b) (h : a ≤ n * b) : ceilDiv a b ≤ n := by
  unfold ceilDiv
  apply Nat.le_of_lt_succ
  rw [Nat.div_lt_iff_lt_mul hb, Nat.succ_mul]
  omega

/-- The outputs `api_test.go` expects of `GetPartSize`, met by the model. -/
theorem GetPartSize_tests :
    GetPartSize 5000000000 = 5242880 ∧ GetPartSize 50000000000000000 = 5368709120 ∧
    GetPartSize 50000000000 ≤ MinimumPartSize ∧
    GetPartSize 5000000000000000000 ≤ maxPartSize := by
  decide

/-- C2, refuted as stated: a total of 50,000,000,000,000,000 bytes gets the
clamped part size 5,368,709,120 (the output `ExampleGetPartSize_second` expects),
which implies 9,313,226 parts, more than 10,000. -/
theorem GetPartSize_count_counterexample :
    GetPartSize 50000000000000000 = 5368709120 ∧
    ceilDiv 50000000000000000 (GetPartSize 50000000000000000) = 9313226 ∧
    ¬ ceilDiv 50000000000000000 (GetPartSize 50000000000000000) ≤ maxParts := by
  decide

/-- C2, amended: for every total size of at most 10,000 parts of the maximum
part size (53,687,091,200,000 bytes), the number of parts implied by the
computed part size does not exceed the maximum part count:
`ceil(t / GetPartSize(t)) ≤ 10,000`. -/
theorem GetPartSize_count_le (t : Nat) (ht : t ≤ maxParts * maxPartSize) :
    ceilDiv t (GetPartSize t) ≤ maxParts := by
  have hpos : 0 < GetPartSize t := by
    simp only [GetPartSize, ceilDiv, maxParts, MinimumPartSize, maxPartSize]
    split_ifs <;> omega
  apply ceilDiv_le_of_le_mul _ _ _ hpos
  simp only [GetPartSize, ceilDiv, maxParts, MinimumPartSize, maxPartSize] at ht ⊢
  split_ifs <;> omega

/-- An instance of the amended C2 at the largest total it covers. -/
theorem GetPartSize_count_le_witness :
    ceilDiv 53687091200000 (GetPartSize 53687091200000) ≤ maxParts :=
  GetPartSize_count_le 53687091200000 (by decide)

/-- C8: for every total size, `GetPartSize` lies between the minimum part size
5,242,880 and the maximum 5,368,709,120, and it is the maximum for the totals
50,000,000,000,000,000 and 5,000,000,000,000,000,000. -/
theorem GetPartSize_bounds (t : Nat) :
    5242880 ≤ GetPartSize t ∧ GetPartSize t ≤ 5368709120 ∧
    MinimumPartSize = 5242880 ∧ maxPartSize = 5368709120 ∧
    GetPartSize 50000000000000000 = 5368709120 ∧
    GetPartSize 5000000000000000000 = 5368709120 := by
  refine ⟨?_, ?_, by decide, by decide, by decide, by decide⟩
  · simp only [GetPartSize, ceilDiv, maxParts, MinimumPartSize, maxPartSize]
    split_ifs <;> omega
  · simp only [GetPartSize, ceilDiv, maxParts, MinimumPartSize, maxPartSize]
    split_ifs <;> omega

/-- C9: `GetPartSize` is monotone non-decreasing in the total size: for all
`t1 < t2`, `GetPartSize t1 ≤ GetPartSize t2`. -/
theorem GetPartSize_mono (t1 t2 : Nat) (h : t1 < t2) : GetPartSize t1 ≤ GetPartSize t2 := by
  simp only [GetPartSize, ceilDiv, maxParts, MinimumPartSize, maxPartSize]
  split_ifs <;> omega

/-- An instance of C9 across the threshold where the part size starts to grow. -/
theorem GetPartSize_mono_witness :
    GetPartSize 52428800000 ≤ GetPartSize 52428800001 :=
  GetPartSize_mono 52428800000 52428800001 (by decide)

/-! ## Key encoding: properties -/

theorem char_beq_toNat (c d : Char) : (c == d) = (c.toNat == d.toNat) := by
  rw [Bool.eq_iff_iff]
  simp [Char.toNat, Char.ext_iff, UInt32.ext_iff, UInt32.toNat]

theorem isUnreserved_eq (c : Char) : isUnreserved c = isUnreservedByte c.toNat := by
  simp only [isUnreserved, isUnreservedByte, Char.isAlphanum, Char.isAlpha, Char.isUpper,
    Char.isLower, Char.isDigit, char_beq_toNat]
  have e1 : '-'.toNat = 45 := rfl
  have e2 : '_'.toNat = 95 := rfl
  have e3 : '.'.toNat = 46 := rfl
  have e4 : '~'.toNat = 126 := rfl
  rw [e1, e2, e3, e4]
  simp only [GE.ge, UInt32.le_def, Fin.le_def, Char.toNat, UInt32.toNat]
  rfl

theorem isUnreservedByte_lt (b : Nat) (h : isUnreservedByte b = true) : b < 128 := by
  simp only [isUnreservedByte, Bool.or_eq_true, Bool.and_eq_true, decide_eq_true_eq,
    beq_iff_eq] at h
  omega

theorem isUnreservedByte_high (b : Nat) (h : 128 ≤ b) : isUnreservedByte b = false := by
  cases hb : isUnreservedByte b with
  | false => rfl
  | true => have := isUnreservedByte_lt b hb; omega

theorem encodeChar_eq_bytes (c : Char) : encodeChar c = (utf8Bytes c).flatMap encodeByte := by
  by_cases hc : c.toNat < 128
  · have hb : utf8Bytes c = [c.toNat] := by simp [utf8Bytes, hc]
    simp only [encodeChar, hb, List.flatMap_cons, List.flatMap_nil, List.append_nil, encodeByte,
      isUnreserved_eq, Char.ofNat_toNat]
  · have hu : isUnreserved c = false := by
      rw [isUnreserved_eq]
      exact isUnreservedByte_high _ (by omega)
    simp only [encodeChar, hu, Bool.false_eq_true, if_false]
    have hall : ∀ b ∈ utf8Bytes c, encodeByte b = percentByte b := by
      intro b hb
      have hge : 128 ≤ b := by
        simp only [utf8Bytes] at hb
        split_ifs at hb <;> simp at hb <;> omega
      simp [encodeByte, isUnreservedByte_high b hge]
    exact (List.flatMap_congr hall).symm

theorem char_toNat_lt (c : Char) : c.toNat < 0x110000 := by
  have h := c.valid
  simp only [UInt32.isValidChar, Nat.isValidChar] at h
  simp only [Char.toNat]
  omega

theorem utf8Bytes_lt (c : Char) : ∀ b ∈ utf8Bytes c, b < 256 := by
  intro b hb
  have hc := char_toNat_lt c
  simp only [utf8Bytes] at hb
  split_ifs at hb <;> simp at hb <;> omega

theorem unhex_hexDigit : ∀ n < 16, unhex (hexDigit n) = some n := by
  decide

theorem percentDecode_percentByte (b : Nat) (hb : b < 256) (rest : List Char) :
    percentDecode (percentByte b ++ rest) = (percentDecode rest).map (fun bytes => b :: bytes) := by
  have h1 := unhex_hexDigit (b / 16) (by omega)
  have h2 := unhex_hexDigit (b % 16) (by omega)
  have hb16 : 16 * (b / 16) + b % 16 = b := by omega
  simp only [percentByte, List.cons_append, List.nil_append, percentDecode, if_true, h1, h2,
    List.append_eq]
  cases percentDecode rest with
  | none => rfl
  | some bytes => simp only [hb16, Option.map_some']

theorem percentDecode_percentBytes (bs : List Nat) (hbs : ∀ b ∈ bs, b < 256) (rest : List Char) :
    percentDecode (bs.flatMap percentByte ++ rest) =
      (percentDecode rest).map (fun bytes => bs ++ bytes) := by
  induction bs with
  | nil => simp
  | cons b bs ih =>
    rw [List.flatMap_cons, List.append_assoc,
      percentDecode_percentByte b (hbs b (List.mem_cons_self _ _)),
      ih (fun x hx => hbs x (List.mem_cons_of_mem _ hx))]
    cases percentDecode rest <;> simp

theorem percentDecode_encodeChar (c : Char) (rest : List Char) :
    percentDecode (encodeChar c ++ rest) =
      (percentDecode rest).map (fun bytes => utf8Bytes c ++ bytes) := by
  by_cases hu : isUnreserved c = true
  · have hne : c ≠ '%' := by
      rintro rfl
      exact absurd hu (by decide)
    simp only [encodeChar, hu, if_true, List.cons_append, List.nil_append]
    rw [percentDecode.eq_def]
    simp only [if_neg hne]
    cases percentDecode rest <;> rfl
  · simp only [encodeChar, hu, Bool.false_eq_true, if_false]
    exact percentDecode_percentBytes _ (utf8Bytes_lt c) rest

theorem percentDecode_encode (cs : List Char) :
    percentDecode (cs.flatMap encodeChar) = some (cs.flatMap utf8Bytes) := by
  induction cs with
  | nil => rfl
  | cons c cs ih =>
    rw [List.flatMap_cons, percentDecode_encodeChar, ih]
    simp

theorem decodeRune_utf8Bytes (c : Char) (rest : List Nat) :
    decodeRune (utf8Bytes c ++ rest) = some (c, rest) := by
  have hc := char_toNat_lt c
  simp only [utf8Bytes]
  split_ifs with h1 h2 h3
  · simp [decodeRune, h1, Char.ofNat_toNat]
  · have e : c.toNat / 64 * 64 + c.toNat % 64 = c.toNat := by omega
    simp [decodeRune, show 192 + c.toNat / 64 < 224 by omega,
      show ¬ 192 + c.toNat / 64 < 128 by omega, e, Char.ofNat_toNat]
  · have e : c.toNat / 4096 * 4096 + c.toNat / 64 % 64 * 64 + c.toNat % 64 = c.toNat := by
      omega
    simp [decodeRune, show ¬ 224 + c.toNat / 4096 < 224 by omega,
      show ¬ 224 + c.toNat / 4096 < 128 by omega,
      show 224 + c.toNat / 4096 < 240 by omega, e, Char.ofNat_toNat]
  · have e : c.toNat / 262144 * 262144 + c.toNat / 4096 % 64 * 4096 + c.toNat / 64 % 64 * 64 +
        c.toNat % 64 = c.toNat := by omega
    simp [decodeRune, show ¬ 240 + c.toNat / 262144 < 224 by omega,
      show ¬ 240 + c.toNat / 262144 < 128 by omega,
      show ¬ 240 + c.toNat / 262144 < 240 by omega, e, Char.ofNat_toNat]

theorem utf8CharsAux_keyBytes (cs : List Char) (fuel : Nat) (hfuel : cs.length ≤ fuel) :
    utf8CharsAux fuel (cs.flatMap utf8Bytes) = cs := by
  induction cs generalizing fuel with
  | nil => cases fuel <;> simp [utf8CharsAux, decodeRune]
  | cons c cs ih =>
    cases fuel with
    | zero => simp at hfuel
    | succ fuel =>
      rw [List.flatMap_cons, utf8CharsAux, decodeRune_utf8Bytes]
      simp only [List.cons.injEq, true_and]
      exact ih fuel (by simpa using hfuel)

theorem utf8Bytes_length_pos (c : Char) : 0 < (utf8Bytes c).length := by
  simp only [utf8Bytes]
  split_ifs <;> simp

theorem length_le_keyBytes (cs : List Char) : cs.length ≤ (cs.flatMap utf8Bytes).length := by
  induction cs with
  | nil => simp
  | cons c cs ih =>
    have h := utf8Bytes_length_pos c
    simp only [List.flatMap_cons, List.length_append, List.length_cons]
    omega

theorem utf8Chars_keyBytes (cs : List Char) : utf8Chars (cs.flatMap utf8Bytes) = cs :=
  utf8CharsAux_keyBytes cs _ (length_le_keyBytes cs)

theorem bytesToKey_keyBytes (name : String) : bytesToKey (keyBytes name) = some name := by
  have h : utf8Chars (keyBytes name) = name.data := utf8Chars_keyBytes name.data
  simp [bytesToKey, h]

theorem keyBytes_of_bytesToKey (bytes : List Nat) (name : String)
    (h : bytesToKey bytes = some name) : keyBytes name = bytes := by
  simp only [bytesToKey] at h
  split_ifs at h with hk
  cases h
  exact hk

/-- The encodings `TestURLEncoding` of api_test.go expects, met by the model. -/
theorem urlEncodeName_tests :
    urlEncodeName "bigfile-1._%" = .ok "bigfile-1._%25" ∧
    urlEncodeName "本語" = .ok "%E6%9C%AC%E8%AA%9E" ∧
    urlEncodeName "本b語.1" = .ok "%E6%9C%ACb%E8%AA%9E.1" ∧
    urlEncodeName ">123>3123123" = .ok "%3E123%3E3123123" ∧
    urlEncodeName "test 1 2.txt" = .ok "test%201%202.txt" := by
  decide

/-- C4: for every key (a valid UTF-8 string), `urlEncodeName` succeeds and returns
the concatenation, over the bytes of the key in order, of the byte itself when
it is an ASCII letter, an ASCII digit or one of `-_.~`, and of `%` with the
byte's two upper-case hexadecimal digits otherwise; so a space gives `%20`,
`%` gives `%25`, `>` gives `%3E` and `本語` gives `%E6%9C%AC%E8%AA%9E`. -/
theorem urlEncodeName_bytes (name : String) :
    urlEncodeName name = .ok ⟨(keyBytes name).flatMap encodeByte⟩ ∧
    urlEncodeName " " = .ok "%20" ∧ urlEncodeName "%" = .ok "%25" ∧
    urlEncodeName ">" = .ok "%3E" ∧ urlEncodeName "本語" = .ok "%E6%9C%AC%E8%AA%9E" := by
  refine ⟨?_, by decide, by decide, by decide, by decide⟩
  simp only [urlEncodeName, keyBytes, List.flatMap_assoc]
  congr 2
  exact List.flatMap_congr (fun c _ => encodeChar_eq_bytes c)

/-- C10: key encoding round-trips: for every key, percent-decoding
`urlEncodeName k` yields exactly the bytes of `k`, decoding it gives `k` back,
and encoding again after decoding gives the same encoded string. -/
theorem urlEncodeName_roundtrip (k : String) :
    ∃ encoded, urlEncodeName k = .ok encoded ∧
      percentDecode encoded.data = some (keyBytes k) ∧
      urlDecodeName encoded = some k ∧
      (urlDecodeName encoded).map urlEncodeName = some (.ok encoded) := by
  have hdec : percentDecode (k.data.flatMap encodeChar) = some (keyBytes k) :=
    percentDecode_encode k.data
  have hname : urlDecodeName ⟨k.data.flatMap encodeChar⟩ = some k := by
    simp only [urlDecodeName, hdec, bytesToKey_keyBytes]
  refine ⟨⟨k.data.flatMap encodeChar⟩, rfl, hdec, hname, ?_⟩
  rw [hname]
  rfl

/-! ## Bucket ACL: properties -/

/-- The answers `TestACLTypes` of api_test.go expects, met by the model. -/
theorem isValidBucketACL_tests :
    isValidBucketACL "private" = true ∧ isValidBucketACL "public-read" = true ∧
    isValidBucketACL "public-read-write" = true ∧
    isValidBucketACL "authenticated-read" = true ∧ isValidBucketACL "invalid" = false := by
  decide

/-- C11: for every string `s`, `BucketACL(s).isValidBucketACL()` is true if and only
if `s` is one of `private`, `public-read`, `public-read-write`,
`authenticated-read`; it is false for the empty string, for `invalid` and for
the case variant `Private`. -/
theorem isValidBucketACL_iff (s : String) :
    (isValidBucketACL s = true ↔
      s = "private" ∨ s = "public-read" ∨ s = "public-read-write" ∨
        s = "authenticated-read") ∧
    isValidBucketACL "" = false ∧ isValidBucketACL "invalid" = false ∧
    isValidBucketACL "Private" = false := by
  refine ⟨?_, by decide, by decide, by decide⟩
  simp [isValidBucketACL, canonicalACLs]

/-! ## Host lookup of filesystem URLs -/

/-- C13: for a loaded configuration and a URL that `client.NewURL` classifies as
Filesystem, `getHostConfig` returns the fixed profile with empty keys and API
`fs` and no error, whatever the matcher and the contents of `config.Hosts`. -/
theorem getHostConfig_filesystem (config : mcConfig) (NewURL : String → clientURL)
    (fmatch : String → String → Except String Bool) (URL : String)
    (hfs : (NewURL URL).Kind = URLType.Filesystem) :
    getHostConfig (.ok config) NewURL fmatch URL =
      (⟨"", "", "fs"⟩, none) := by
  simp only [getHostConfig, if_pos hfs]

/-- An instance of C13: the map holds the malformed pattern `[a`, a pattern that
matches everything and the empty key, and the filesystem URL still gets the
`fs` profile. -/
theorem getHostConfig_filesystem_witness :
    getHostConfig (.ok ⟨[("[a", credA), ("*", credB), ("", credA)], []⟩)
      exampleFsURL filepathMatch "/tmp/bucket" = (⟨"", "", "fs"⟩, none) :=
  getHostConfig_filesystem ⟨[("[a", credA), ("*", credB), ("", credA)], []⟩
    exampleFsURL filepathMatch "/tmp/bucket" (by decide)

/-! ## Part size at the minimum -/

/-- C14: for every total size `t` whose quotient by 5 MiB does not exceed 10,000,
`GetPartSize t` is exactly the minimum 5,242,880; so is
`GetPartSize 5,000,000,000`, and `GetPartSize 50,000,000,000` is not greater
than `MinimumPartSize`. -/
theorem GetPartSize_minimum (t : Nat)
    (ht : (t : ℚ) / (MinimumPartSize : ℚ) ≤ (maxParts : ℚ)) :
    GetPartSize t = 5242880 ∧ MinimumPartSize = 5242880 ∧
    GetPartSize 5000000000 = 5242880 ∧ GetPartSize 50000000000 ≤ MinimumPartSize := by
  refine ⟨?_, by decide, by decide, by decide⟩
  have hpos : (0 : ℚ) < (MinimumPartSize : ℚ) := by
    norm_num [MinimumPartSize]
  have h1 : (t : ℚ) ≤ (maxParts : ℚ) * (MinimumPartSize : ℚ) := (div_le_iff₀ hpos).mp ht
  have h2 : t ≤ maxParts * MinimumPartSize := by exact_mod_cast h1
  simp only [GetPartSize, ceilDiv, maxParts, MinimumPartSize, maxPartSize] at h2 ⊢
  split_ifs <;> omega

/-- An instance of C14 at the largest total it covers, 10,000 parts of 5 MiB. -/
theorem GetPartSize_minimum_witness :
    GetPartSize 52428800000 = 5242880 ∧ MinimumPartSize = 5242880 ∧
    GetPartSize 5000000000 = 5242880 ∧ GetPartSize 50000000000 ≤ MinimumPartSize :=
  GetPartSize_minimum 52428800000 (by norm_num [MinimumPartSize, maxParts])

/-! ## The make-bucket command: blank arguments -/

theorem checkArgs_blank (args : List String) (hblank : ∃ a ∈ args, TrimSpace a = "") :
    checkArgs false args =
      ([Event.fatal "Unable to validate empty argument." errInvalidArgument], some 1) := by
  induction args with
  | nil => simp at hblank
  | cons a rest ih =>
    by_cases ha : TrimSpace a = ""
    · simp [checkArgs, ha, fatalIf, fatalQuitRoutine]
    · simp only [checkArgs, if_neg ha]
      apply ih
      obtain ⟨b, hb, hbb⟩ := hblank
      rcases List.mem_cons.mp hb with h | h
      · subst h
        exact absurd hbb ha
      · exact ⟨b, h, hbb⟩

/-- C15, refuted as stated: the argument list `help`, blank holds a blank argument,
yet `checkMakeBucketSyntax` shows the help and exits with status 1 without
raising the invalid-argument error. -/
theorem checkMakeBucketSyntax_help_counterexample :
    TrimSpace " " = "" ∧
    checkMakeBucketSyntax false ["help", " "] = ([Event.help "mb"], some 1) ∧
    Event.fatal "Unable to validate empty argument." errInvalidArgument ∉
      (mainMakeBucket false ⟨[], []⟩ exampleAliasURL exampleUrl2Client exampleMakeBucket
        ["help", " "] ([] : List String)).events :=
  ⟨by decide, by decide, by decide⟩

/-- C15, amended: in the make-bucket command (outside testing mode), for every
argument list whose first argument is not `help` and that holds an empty or
blank argument, `checkMakeBucketSyntax` raises the fatal invalid-argument error
and the process exits with status 1: the run of `mainMakeBucket` consists of
that report alone, no argument is resolved, no `doMakeBucket` is called and the
world is left as it was, also for valid arguments before the blank one. -/
theorem mainMakeBucket_blank_argument {σ κ : Type} (config : mcConfig)
    (getAliasURL : String → List (String × String) → String)
    (url2Client : String → Except probeError κ)
    (MakeBucket : κ → σ → Option probeError × σ) (args : List String) (w : σ)
    (hhelp : args.head? ≠ some "help")
    (hblank : ∃ a ∈ args, TrimSpace a = "") :
    checkMakeBucketSyntax false args =
      ([Event.fatal "Unable to validate empty argument." errInvalidArgument], some 1) ∧
    mainMakeBucket false config getAliasURL url2Client MakeBucket args w =
      ⟨[Event.fatal "Unable to validate empty argument." errInvalidArgument], w, some 1⟩ := by
  have hne : args.isEmpty = false := by
    obtain ⟨a, ha, _⟩ := hblank
    cases args with
    | nil => simp at ha
    | cons b rest => rfl
  have hcheck : checkMakeBucketSyntax false args =
      ([Event.fatal "Unable to validate empty argument." errInvalidArgument], some 1) := by
    simp only [checkMakeBucketSyntax, hne, Bool.false_or, decide_eq_true_eq, if_neg hhelp]
    exact checkArgs_blank args hblank
  exact ⟨hcheck, by simp only [mainMakeBucket, hcheck]⟩

/-- An instance of the amended C15: `mc mb b0` followed by a blank argument and
`b2` is refused before `b0` is touched. -/
theorem mainMakeBucket_blank_argument_witness :
    checkMakeBucketSyntax false ["b0", "  ", "b2"] =
      ([Event.fatal "Unable to validate empty argument." errInvalidArgument], some 1) ∧
    mainMakeBucket false ⟨[], []⟩ exampleAliasURL exampleUrl2Client exampleMakeBucket
      ["b0", "  ", "b2"] ([] : List String) =
      ⟨[Event.fatal "Unable to validate empty argument." errInvalidArgument], [], some 1⟩ :=
  mainMakeBucket_blank_argument ⟨[], []⟩ exampleAliasURL exampleUrl2Client exampleMakeBucket
    ["b0", "  ", "b2"] [] (by decide) (by decide)

/-! ## Sessions: properties -/

theorem loadSessionV1_record (env : SessionEnv) (sid : String)
    (h : (loadSessionV1 env sid).2 = none) :
    ∃ session, loadSessionV1 env sid = (some session, none) := by
  unfold loadSessionV1 at h ⊢
  by_cases hd : (!env.isSessionDirExists) = true
  · simp [hd] at h
  · simp only [hd, Bool.false_eq_true, if_false] at h ⊢
    cases hf : getSessionFileV1 env sid with
    | error err => simp [hf] at h
    | ok sessionFile =>
      simp only [hf] at h ⊢
      cases hq : env.quickNew
          { Version := "1.0.0", CommandType := "", SessionID := "", URLs := [], Files := [] } with
      | some err => simp [hq] at h
      | none =>
        simp only [hq] at h ⊢
        cases hl : env.quickLoad
            { Version := "1.0.0", CommandType := "", SessionID := "", URLs := [], Files := [] }
            sessionFile with
        | error err => simp [hl] at h
        | ok data => exact ⟨data, rfl⟩

theorem sessionLoop_loads (IsTesting : Bool) (env : SessionEnv) (sessionList : List String)
    (hload : ∀ path ∈ sessionList, sidMatch (Base path) = true →
      ∃ session, loadSessionV1 env (Base path) = (some session, none)) :
    ∀ sids, sessionLoop IsTesting env sessionList sids =
      ⟨[], (sessionList.map Base).filter sidMatch,
        Ending.returned (sids ++ (sessionList.map Base).filter
          (fun sid => sidMatch sid && loadedVersionOk env sid))⟩ := by
  induction sessionList with
  | nil => intro sids; simp [sessionLoop]
  | cons path rest ih =>
    intro sids
    have ihr := ih (fun p hp => hload p (List.mem_cons_of_mem _ hp))
    by_cases hm : sidMatch (Base path) = true
    · obtain ⟨session, hs⟩ := hload path (List.mem_cons_self _ _) hm
      have hv : loadedVersionOk env (Base path) = decide (session.Version = "1.0.0") := by
        simp [loadedVersionOk, hs]
      by_cases hver : session.Version = "1.0.0"
      · simp [sessionLoop, hm, hs, fatalIf, hver, ihr, hv, List.filter_cons]
      · simp [sessionLoop, hm, hs, fatalIf, hver, ihr, hv, List.filter_cons]
    · simp [sessionLoop, hm, ihr, List.filter_cons]

/-- C12, refuted as stated: in the folder that lists `abcdefgh`, `notes.txt`,
`ijklmnop` and `qrstuvwx`, the file of `ijklmnop` cannot be read; the
enumeration does not return the ids with a loaded record of version 1.0.0, it
reports `Unable to load session` as fatal and the process exits with status 1. -/
theorem getSessionIDsV1_unreadable_counterexample :
    sidMatch "ijklmnop" = true ∧
    loadSessionV1 brokenSessions "ijklmnop" = (none, some ⟨"unexpected end of JSON input"⟩) ∧
    loadedVersionOk brokenSessions "abcdefgh" = true ∧
    getSessionIDsV1 false brokenSessions =
      ⟨[Event.fatal "Unable to load session ‘ijklmnop’." ⟨"unexpected end of JSON input"⟩],
       ["abcdefgh", "ijklmnop"], Ending.exited 1⟩ :=
  ⟨by decide, by decide, by decide, by decide⟩

/-- C12, amended: when the session folder is determined and listed and every
listed entry whose base name consists of exactly 8 ASCII letters can be loaded,
`getSessionIDsV1` returns, in listing order, exactly the base names of the
entries that consist of exactly 8 ASCII letters and whose loaded record has
version 1.0.0; `loadSessionV1` is called on the entries with a matching name
and on no other, and an entry whose version differs is skipped while the
enumeration goes on. -/
theorem getSessionIDsV1_returns (IsTesting : Bool) (env : SessionEnv)
    (sessionDir : String) (sessionList : List String)
    (hdir : env.getSessionDir = (sessionDir, none))
    (hglob : env.Glob (sessionDir ++ "/*") = (sessionList, none))
    (hload : ∀ path ∈ sessionList, sidMatch (Base path) = true →
      (loadSessionV1 env (Base path)).2 = none) :
    getSessionIDsV1 IsTesting env =
      ⟨[], (sessionList.map Base).filter sidMatch,
        Ending.returned ((sessionList.map Base).filter
          (fun sid => sidMatch sid && loadedVersionOk env sid))⟩ := by
  simp only [getSessionIDsV1, hdir, hglob, fatalIf,
    sessionLoop_loads IsTesting env sessionList
      (fun path hp hm => loadSessionV1_record env _ (hload path hp hm)) [],
    List.nil_append, List.append_nil]

/-- An instance of the amended C12: of `abcdefgh` (1.0.0), `notes.txt` (unreadable,
never loaded), `ijklmnop` (2.0.0) and `qrstuvwx` (1.0.0) the enumeration returns
`abcdefgh` and `qrstuvwx`. -/
theorem getSessionIDsV1_returns_witness :
    getSessionIDsV1 false exampleSessions =
      ⟨[], ["abcdefgh", "ijklmnop", "qrstuvwx"], Ending.returned ["abcdefgh", "qrstuvwx"]⟩ := by
  have h := getSessionIDsV1_returns false exampleSessions "/s"
    ["/s/abcdefgh", "/s/notes.txt", "/s/ijklmnop", "/s/qrstuvwx"] rfl rfl (by decide)
  rw [h]
  decide

end Mc
